import Mathlib

/-!
Verification of the database-access compatibility shim in
src/db/connection.js of the Library-Deployment repository.

The component has two functions:

* convertQuestionMarksToDollars(sql, values): if the parameter list is
  empty or absent it returns the statement unchanged with an empty value
  list; otherwise it replaces every occurrence of the character ? in the
  statement text, left to right, by the numbered token $1, $2, ... and
  returns the value list unchanged.

* execute(sql, params): translates, submits to the pool, and normalizes
  the driver result: if the upper-cased command tag equals SELECT or the
  result carries a row array, it returns the read pair [rows, undefined];
  otherwise the mutation packet [{affectedRows: rowCount ?? 0, insertId: null}].

Statement texts are embedded as List Char; driver results as a structure
with optional command tag, optional row array and optional row count; the
pool call as an abstract function returning Except.
-/

namespace LibraryDeployment

/-- Decimal digit character for the lowest digit of a natural number. -/
def digitChar (n : Nat) : Char := Char.ofNat (48 + n % 10)

/-- Fuel-driven accumulator loop producing the decimal digits of a natural
number, most significant first, in front of the accumulator. -/
def natReprAux : Nat → Nat → List Char → List Char
  | 0, _, acc => acc
  | fuel + 1, n, acc =>
    if n < 10 then digitChar n :: acc
    else natReprAux fuel (n / 10) (digitChar n :: acc)

/-- Decimal representation of a natural number as a character list. -/
def natRepr (n : Nat) : List Char := natReprAux (n + 1) n []

/-- The numbered parameter token $k produced by the template literal in the
replacement callback of convertQuestionMarksToDollars. -/
def dollarToken (k : Nat) : List Char := '$' :: natRepr k

/-- The global-regex replacement sql.replace of connection.js: every
occurrence of the character ? is replaced, left to right, by the token
built from the incremented counter; idx is the number of markers already
replaced. -/
def replaceQM : List Char → Nat → List Char
  | [], _ => []
  | c :: rest, idx =>
    if c = '?' then dollarToken (idx + 1) ++ replaceQM rest (idx + 1)
    else c :: replaceQM rest idx

/-- The pair returned by convertQuestionMarksToDollars. -/
structure QueryParts (V : Type) where
  text : List Char
  values : List V
deriving DecidableEq

/-- Embedding of convertQuestionMarksToDollars from src/db/connection.js.
An absent or null values argument is modelled as the empty list, which the
JavaScript guard treats identically. -/
def convertQuestionMarksToDollars {V : Type} (sql : List Char) (values : List V) :
    QueryParts V :=
  if values.isEmpty then ⟨sql, []⟩
  else ⟨replaceQM sql 0, values⟩

/-- The shape of the native pg driver result as consumed by execute:
command is the command tag (absent models undefined or null), rows is the
row array when the result carries one (none models a non-array rows field),
rowCount the affected-row count (none models null or undefined). -/
structure DriverResult (Row : Type) where
  command : Option (List Char)
  rows : Option (List Row)
  rowCount : Option Nat
deriving DecidableEq

/-- The value execute resolves with: either the read pair mimicking the
mysql2 tuple [rows, fields] with the fields slot always undefined, or the
mutation packet mimicking the mysql2 OkPacket in first tuple position. -/
inductive ExecuteValue (Row : Type) where
  | readPair (rows : Option (List Row)) (fields : Option Unit)
  | okPacket (affectedRows : Nat) (insertId : Option Int)
deriving DecidableEq

/-- The string constant SELECT compared against the upper-cased command tag. -/
def selectTag : List Char := "SELECT".data

/-- The toUpperCase call of connection.js, character by character. -/
def jsToUpper (s : List Char) : List Char := s.map Char.toUpper

/-- The result-normalization half of execute in src/db/connection.js:
upper-case the command tag (empty string when absent), classify as a read
when it equals SELECT or the rows field is an array, otherwise build the
OkPacket with affectedRows defaulted to 0 and insertId null. -/
def normalizeResult {Row : Type} (r : DriverResult Row) : ExecuteValue Row :=
  if jsToUpper (r.command.getD []) = selectTag ∨ r.rows.isSome then
    ExecuteValue.readPair r.rows none
  else
    ExecuteValue.okPacket (r.rowCount.getD 0) none

/-- Embedding of execute from src/db/connection.js. The awaited
pool.query call is abstracted as a function from translated text and
values to a driver result or an error; a rejected promise is the error
case of Except and propagates unchanged through the await. -/
def execute {V Row E : Type}
    (poolQuery : List Char → List V → Except E (DriverResult Row))
    (sql : List Char) (params : List V) : Except E (ExecuteValue Row) :=
  let q := convertQuestionMarksToDollars sql params
  match poolQuery q.text q.values with
  | Except.error e => Except.error e
  | Except.ok result => Except.ok (normalizeResult result)

/-- Specification-side view of a statement text as the list of its
marker-free segments: joinWithQM segs interleaves the segments with the
marker character ?, so a text with n markers corresponds to n+1 segments. -/
def joinWithQM : List (List Char) → List Char
  | [] => []
  | [s] => s
  | s :: t :: rest => s ++ '?' :: joinWithQM (t :: rest)

/-- Specification-side translated text: the same segments interleaved with
the numbered tokens $k, $k+1, ... in order. -/
def joinWithDollars : List (List Char) → Nat → List Char
  | [], _ => []
  | [s], _ => s
  | s :: t :: rest, k => s ++ dollarToken k ++ joinWithDollars (t :: rest) (k + 1)

/-- Decomposition of an arbitrary text into its marker-free segments,
splitting at every occurrence of ? with no regard to quoting context. -/
def splitOnQM : List Char → List (List Char)
  | [] => [[]]
  | c :: rest =>
    match splitOnQM rest with
    | [] => [[c]]
    | s :: ss => if c = '?' then [] :: s :: ss else (c :: s) :: ss

/-- Case-insensitive equality of character lists: equal after upper-casing
both sides. -/
def eqCaseInsensitive (a b : List Char) : Prop := jsToUpper a = jsToUpper b

instance (a b : List Char) : Decidable (eqCaseInsensitive a b) := by
  unfold eqCaseInsensitive; infer_instance

/-- Scalar parameter values as they appear at the call sites of execute:
numbers or strings. Used only to instantiate the value type at concrete
inputs. -/
inductive JsParam where
  | num (n : Int)
  | str (s : List Char)
deriving DecidableEq

theorem replaceQM_append (a b : List Char) (k : Nat) :
    '?' ∉ a → replaceQM (a ++ b) k = a ++ replaceQM b k := by
  induction a with
  | nil => intro _; rfl
  | cons c rest ih =>
    intro ha
    have hc : ¬ c = '?' := by
      intro hc; rw [hc] at ha; exact ha (List.mem_cons_self _ _)
    have hrest : '?' ∉ rest := fun hm => ha (List.mem_cons_of_mem _ hm)
    rw [List.cons_append]
    simp only [replaceQM, if_neg hc]
    rw [ih hrest, List.cons_append]

theorem replaceQM_of_not_mem (a : List Char) (k : Nat) (h : '?' ∉ a) :
    replaceQM a k = a := by
  have h2 := replaceQM_append a [] k h
  simpa [replaceQM] using h2

theorem replaceQM_joinWithQM (segs : List (List Char)) :
    ∀ k : Nat, (∀ s ∈ segs, '?' ∉ s) →
    replaceQM (joinWithQM segs) k = joinWithDollars segs (k + 1) := by
  induction segs with
  | nil => intro k _; rfl
  | cons s rest ih =>
    intro k h
    cases rest with
    | nil =>
      simp only [joinWithQM, joinWithDollars]
      exact replaceQM_of_not_mem s k (h s (List.mem_cons_self _ _))
    | cons t rest2 =>
      have hs : '?' ∉ s := h s (List.mem_cons_self _ _)
      have hrest : ∀ u ∈ t :: rest2, '?' ∉ u :=
        fun u hu => h u (List.mem_cons_of_mem _ hu)
      simp only [joinWithQM, joinWithDollars]
      rw [replaceQM_append s _ k hs]
      simp only [replaceQM, if_pos rfl]
      rw [ih (k + 1) hrest]
      simp [List.append_assoc]

theorem convert_nonempty {V : Type} (sql : List Char) (values : List V)
    (hv : values ≠ []) :
    convertQuestionMarksToDollars sql values = ⟨replaceQM sql 0, values⟩ := by
  have h : values.isEmpty = false := by
    cases values with
    | nil => exact absurd rfl hv
    | cons a t => rfl
  simp [convertQuestionMarksToDollars, h]

theorem convert_joinWithQM {V : Type} (segs : List (List Char)) (values : List V)
    (hseg : ∀ s ∈ segs, '?' ∉ s) (hv : values ≠ []) :
    convertQuestionMarksToDollars (joinWithQM segs) values =
      ⟨joinWithDollars segs 1, values⟩ := by
  rw [convert_nonempty _ _ hv, replaceQM_joinWithQM segs 0 hseg]

theorem splitOnQM_ne_nil (s : List Char) : splitOnQM s ≠ [] := by
  cases s with
  | nil => simp [splitOnQM]
  | cons c rest =>
    simp only [splitOnQM]
    cases splitOnQM rest with
    | nil => simp
    | cons t ts =>
      by_cases hc : c = '?' <;> simp [hc]

theorem joinWithQM_splitOnQM (s : List Char) : joinWithQM (splitOnQM s) = s := by
  induction s with
  | nil => rfl
  | cons c rest ih =>
    simp only [splitOnQM]
    cases hr : splitOnQM rest with
    | nil => exact absurd hr (splitOnQM_ne_nil rest)
    | cons t ts =>
      rw [hr] at ih
      by_cases hc : c = '?'
      · subst hc
        simp only [if_pos rfl, joinWithQM, List.nil_append]
        rw [ih]
      · simp only [if_neg hc]
        cases ts with
        | nil =>
          simp only [joinWithQM] at ih ⊢
          rw [ih]
        | cons u us =>
          show (c :: t) ++ '?' :: joinWithQM (u :: us) = c :: rest
          rw [List.cons_append]
          rw [show t ++ '?' :: joinWithQM (u :: us) = joinWithQM (t :: u :: us) from rfl, ih]

theorem not_mem_splitOnQM (s : List Char) : ∀ t ∈ splitOnQM s, '?' ∉ t := by
  induction s with
  | nil =>
    intro t ht
    simp only [splitOnQM, List.mem_singleton] at ht
    subst ht; exact List.not_mem_nil _
  | cons c rest ih =>
    intro t ht
    simp only [splitOnQM] at ht
    cases hr : splitOnQM rest with
    | nil => exact absurd hr (splitOnQM_ne_nil rest)
    | cons u us =>
      rw [hr] at ht
      have ht2 : t ∈ if c = '?' then [] :: u :: us else (c :: u) :: us := ht
      clear ht
      by_cases hc : c = '?'
      · rw [if_pos hc] at ht2
        rcases List.mem_cons.mp ht2 with h1 | h2
        · subst h1; exact List.not_mem_nil _
        · exact ih t (hr ▸ h2)
      · rw [if_neg hc] at ht2
        rcases List.mem_cons.mp ht2 with h1 | h2
        · subst h1
          intro hm
          rcases List.mem_cons.mp hm with h3 | h4
          · exact hc h3.symm
          · exact ih u (hr ▸ List.mem_cons_self u us) h4
        · exact ih t (hr ▸ List.mem_cons_of_mem u h2)

theorem digitChar_ne_qm (n : Nat) : digitChar n ≠ '?' := by
  have h10 : ∀ m, m < 10 → Char.ofNat (48 + m) ≠ '?' := by decide
  exact h10 (n % 10) (Nat.mod_lt n (by norm_num))

theorem not_mem_natReprAux (fuel : Nat) :
    ∀ n acc, '?' ∉ acc → '?' ∉ natReprAux fuel n acc := by
  induction fuel with
  | zero => intro n acc hacc; exact hacc
  | succ fuel ih =>
    intro n acc hacc
    have hd : '?' ∉ digitChar n :: acc := by
      intro hm
      rcases List.mem_cons.mp hm with h1 | h2
      · exact digitChar_ne_qm n h1.symm
      · exact hacc h2
    simp only [natReprAux]
    by_cases hn : n < 10
    · rw [if_pos hn]; exact hd
    · rw [if_neg hn]; exact ih (n / 10) (digitChar n :: acc) hd

theorem not_mem_dollarToken (k : Nat) : '?' ∉ dollarToken k := by
  intro hm
  rcases List.mem_cons.mp hm with h1 | h2
  · exact absurd h1 (by decide)
  · exact not_mem_natReprAux (k + 1) k [] (List.not_mem_nil _) h2

theorem not_mem_joinWithDollars (segs : List (List Char)) :
    ∀ k : Nat, (∀ s ∈ segs, '?' ∉ s) → '?' ∉ joinWithDollars segs k := by
  induction segs with
  | nil => intro k _; exact List.not_mem_nil _
  | cons s rest ih =>
    intro k h
    cases rest with
    | nil => exact h s (List.mem_cons_self _ _)
    | cons t rest2 =>
      simp only [joinWithDollars]
      intro hm
      rcases List.mem_append.mp hm with h1 | h2
      · rcases List.mem_append.mp h1 with h3 | h4
        · exact h s (List.mem_cons_self _ _) h3
        · exact not_mem_dollarToken k h4
      · exact ih (k + 1) (fun u hu => h u (List.mem_cons_of_mem _ hu)) h2

theorem jsToUpper_eq_selectTag_iff (cmd : List Char) :
    jsToUpper cmd = selectTag ↔ eqCaseInsensitive cmd selectTag := by
  unfold eqCaseInsensitive
  have h : jsToUpper selectTag = selectTag := by decide
  rw [h]

/-- Claim C1: for every statement text with n markers (equivalently, n+1
marker-free segments interleaved with the marker character) and a
non-empty parameter list of length n, the translation replaces the k-th
marker, counted 1-indexed left to right, with the token $k, and returns
the parameter sequence unchanged in order. -/
theorem C1_marker_numbering {V : Type} (segs : List (List Char)) (values : List V)
    (hseg : ∀ s ∈ segs, '?' ∉ s) (_hlen : values.length + 1 = segs.length)
    (hv : values ≠ []) :
    convertQuestionMarksToDollars (joinWithQM segs) values =
      ⟨joinWithDollars segs 1, values⟩ :=
  convert_joinWithQM segs values hseg hv

/-- Witness for C1 at the concrete scenario of the specification. -/
theorem C1_marker_numbering_witness :
    convertQuestionMarksToDollars
        (joinWithQM
          [ "SELECT * FROM books WHERE quantity > ".data, " AND title ILIKE ".data, []])
        [JsParam.num 0, JsParam.str "%foo%".data] =
      ⟨ "SELECT * FROM books WHERE quantity > $1 AND title ILIKE $2".data,
        [JsParam.num 0, JsParam.str "%foo%".data]⟩ := by
  rw [C1_marker_numbering _ _ (by decide) (by decide) (by decide)]
  decide

/-- Claim C2: with an empty (or absent, modelled as empty) parameter list
the translation returns the original statement text unchanged and an empty
parameter list, performing no substitution at all. -/
theorem C2_empty_params {V : Type} (sql : List Char) :
    convertQuestionMarksToDollars sql ([] : List V) = ⟨sql, []⟩ := rfl

/-- Claim C3: a driver result is classified as a read exactly when the
command tag equals SELECT case-insensitively or the result carries a row
array; every read resolves to the pair [rows, undefined], and in
particular a read with a zero-row array resolves to [[], undefined]. -/
theorem C3_read_classification {Row : Type} (r : DriverResult Row) :
    ((∃ rows fields, normalizeResult r = ExecuteValue.readPair rows fields) ↔
      (eqCaseInsensitive (r.command.getD []) selectTag ∨ r.rows.isSome = true))
    ∧ (∀ rows fields, normalizeResult r = ExecuteValue.readPair rows fields →
        rows = r.rows ∧ fields = none)
    ∧ (r.rows = some [] → normalizeResult r = ExecuteValue.readPair (some []) none) := by
  have hsel := jsToUpper_eq_selectTag_iff (r.command.getD [])
  unfold normalizeResult
  by_cases hcond : jsToUpper (r.command.getD []) = selectTag ∨ r.rows.isSome = true
  · rw [if_pos hcond]
    refine ⟨⟨fun _ => ?_, fun _ => ⟨r.rows, none, rfl⟩⟩, ?_, ?_⟩
    · rcases hcond with h | h
      · exact Or.inl (hsel.mp h)
      · exact Or.inr h
    · intro rows fields heq
      simp only [ExecuteValue.readPair.injEq] at heq
      exact ⟨heq.1.symm, heq.2.symm⟩
    · intro hr0
      rw [hr0]
  · rw [if_neg hcond]
    refine ⟨⟨fun hex => ?_, fun hor => ?_⟩, ?_, ?_⟩
    · rcases hex with ⟨rows, fields, heq⟩
      exact ExecuteValue.noConfusion heq
    · exfalso
      apply hcond
      rcases hor with h | h
      · exact Or.inl (hsel.mpr h)
      · exact Or.inr h
    · intro rows fields heq
      exact ExecuteValue.noConfusion heq
    · intro hr0
      exfalso
      apply hcond
      right
      rw [hr0]
      rfl

/-- Witness for C3: a zero-row array under a mutation command tag still
resolves to the read pair with an empty row list. -/
theorem C3_read_classification_witness :
    normalizeResult (⟨some "select".data, some ([] : List Nat), some 5⟩ : DriverResult Nat) =
      ExecuteValue.readPair (some []) none :=
  (C3_read_classification _).2.2 rfl

/-- Claim C4: a driver result not classified as a read resolves to the
OkPacket whose affectedRows is the driver-reported row count, defaulting
to 0 when the count is absent, and whose insertId is always null. -/
theorem C4_mutation_shape {Row : Type} (r : DriverResult Row)
    (h : ¬ (eqCaseInsensitive (r.command.getD []) selectTag ∨ r.rows.isSome = true)) :
    normalizeResult r = ExecuteValue.okPacket (r.rowCount.getD 0) none
    ∧ (r.rowCount = none → normalizeResult r = ExecuteValue.okPacket 0 none) := by
  have hcond : ¬ (jsToUpper (r.command.getD []) = selectTag ∨ r.rows.isSome = true) := by
    intro hor
    apply h
    rcases hor with h1 | h2
    · exact Or.inl ((jsToUpper_eq_selectTag_iff _).mp h1)
    · exact Or.inr h2
  unfold normalizeResult
  rw [if_neg hcond]
  exact ⟨rfl, fun h0 => by rw [h0]; rfl⟩

/-- Witness for C4: an INSERT result with affected-row count 3 and no row
array resolves to the OkPacket with affectedRows 3 and insertId null. -/
theorem C4_mutation_shape_witness :
    normalizeResult (⟨some "INSERT".data, none, some 3⟩ : DriverResult Nat) =
      ExecuteValue.okPacket 3 none :=
  (C4_mutation_shape _ (by decide)).1

/-- Claim C5: parameter values are never interpolated into the statement
text: two non-empty parameter lists of equal length yield the identical
translated text, and the values are passed through to the driver binding
unchanged. -/
theorem C5_no_interpolation {V : Type} (sql : List Char) (v1 v2 : List V)
    (h1 : v1 ≠ []) (h2 : v2 ≠ []) (_hlen : v1.length = v2.length) :
    (convertQuestionMarksToDollars sql v1).text =
      (convertQuestionMarksToDollars sql v2).text
    ∧ (convertQuestionMarksToDollars sql v1).values = v1 := by
  rw [convert_nonempty sql v1 h1, convert_nonempty sql v2 h2]
  exact ⟨rfl, rfl⟩

/-- Witness for C5: a benign and a hostile parameter value produce the
same translated text. -/
theorem C5_no_interpolation_witness :
    (convertQuestionMarksToDollars "id = ?".data [JsParam.num 1]).text =
      (convertQuestionMarksToDollars "id = ?".data
        [JsParam.str "1; DROP TABLE books".data]).text
    ∧ (convertQuestionMarksToDollars "id = ?".data [JsParam.num 1]).values =
      [JsParam.num 1] :=
  C5_no_interpolation _ _ _ (by decide) (by decide) (by decide)

/-- Claim C6: execute rejects with the underlying driver error unmodified,
an error is surfaced exactly when the pool call fails, and a successful
pool call resolves with the normalized result: no retry, no translation,
no substituted default. -/
theorem C6_error_passthrough {V Row E : Type}
    (poolQuery : List Char → List V → Except E (DriverResult Row))
    (sql : List Char) (params : List V) :
    (∀ e : E, execute poolQuery sql params = Except.error e ↔
      poolQuery (convertQuestionMarksToDollars sql params).text
        (convertQuestionMarksToDollars sql params).values = Except.error e)
    ∧ (∀ r : DriverResult Row,
      poolQuery (convertQuestionMarksToDollars sql params).text
        (convertQuestionMarksToDollars sql params).values = Except.ok r →
      execute poolQuery sql params = Except.ok (normalizeResult r)) := by
  constructor
  · intro e
    simp only [execute]
    cases hq : poolQuery (convertQuestionMarksToDollars sql params).text
        (convertQuestionMarksToDollars sql params).values with
    | error e2 => simp
    | ok r => simp
  · intro r hr
    simp only [execute, hr]

/-- Witness for C6: a pool that rejects with error 7 makes execute reject
with the same error 7. -/
theorem C6_error_passthrough_witness :
    execute (fun _ _ => (Except.error 7 : Except Nat (DriverResult Nat)))
      "SELECT 1".data ([] : List JsParam) = Except.error 7 :=
  ((C6_error_passthrough _ _ _).1 7).mpr rfl

/-- Claim C7: the translation performs no placeholder-count validation:
with a non-empty parameter list whose length differs from the marker
count, every marker is still numbered $1, $2, ..., the parameter list is
returned unchanged, and the translation raises no error. -/
theorem C7_no_count_validation {V : Type} (segs : List (List Char)) (values : List V)
    (hseg : ∀ s ∈ segs, '?' ∉ s) (hv : values ≠ [])
    (_hmismatch : values.length + 1 ≠ segs.length) :
    convertQuestionMarksToDollars (joinWithQM segs) values =
      ⟨joinWithDollars segs 1, values⟩ :=
  convert_joinWithQM segs values hseg hv

/-- Witness for C7: two markers against a single parameter still number
both markers and return the parameter unchanged. -/
theorem C7_no_count_validation_witness :
    convertQuestionMarksToDollars
        (joinWithQM [ "a = ".data, " AND b = ".data, []]) [JsParam.num 1] =
      ⟨joinWithDollars [ "a = ".data, " AND b = ".data, []] 1, [JsParam.num 1]⟩ :=
  C7_no_count_validation _ _ (by decide) (by decide) (by decide)

/-- Claim C8: substitution is naive and context-blind: with a non-empty
parameter list every occurrence of the marker character in the text,
including occurrences inside quoted regions or comments, is replaced by
the next numbered token, and no marker remains in the output text. -/
theorem C8_naive_substitution {V : Type} (sql : List Char) (values : List V)
    (hv : values ≠ []) :
    (convertQuestionMarksToDollars sql values).text =
      joinWithDollars (splitOnQM sql) 1
    ∧ '?' ∉ (convertQuestionMarksToDollars sql values).text := by
  have htext : (convertQuestionMarksToDollars sql values).text =
      joinWithDollars (splitOnQM sql) 1 := by
    rw [convert_nonempty sql values hv]
    show replaceQM sql 0 = _
    conv_lhs => rw [← joinWithQM_splitOnQM sql]
    exact replaceQM_joinWithQM (splitOnQM sql) 0 (not_mem_splitOnQM sql)
  refine ⟨htext, ?_⟩
  rw [htext]
  exact not_mem_joinWithDollars (splitOnQM sql) 1 (not_mem_splitOnQM sql)

/-- Witness for C8 at a text whose quoted literal contains a marker. -/
theorem C8_naive_substitution_witness :
    (convertQuestionMarksToDollars "title = 'who?' AND id = ?".data
        [JsParam.num 1]).text =
      joinWithDollars (splitOnQM "title = 'who?' AND id = ?".data) 1
    ∧ '?' ∉ (convertQuestionMarksToDollars "title = 'who?' AND id = ?".data
        [JsParam.num 1]).text :=
  C8_naive_substitution _ _ (by decide)

/-- Claim C9: the row-array check takes precedence over the command tag:
whenever the result carries a row array, even under a mutation command
tag, execute resolves with the read pair and never the OkPacket; the
OkPacket shape is produced only when the rows field is not an array. -/
theorem C9_rows_precedence {Row : Type} (r : DriverResult Row) :
    (∀ rows : List Row, r.rows = some rows →
      normalizeResult r = ExecuteValue.readPair (some rows) none)
    ∧ (∀ (n : Nat) (i : Option Int),
      normalizeResult r = ExecuteValue.okPacket n i → r.rows = none) := by
  constructor
  · intro rows hr
    unfold normalizeResult
    rw [if_pos (Or.inr (by rw [hr]; rfl))]
    rw [hr]
  · intro n i heq
    unfold normalizeResult at heq
    by_cases hcond : jsToUpper (r.command.getD []) = selectTag ∨ r.rows.isSome = true
    · rw [if_pos hcond] at heq
      exact ExecuteValue.noConfusion heq
    · cases hrows : r.rows with
      | none => rfl
      | some rows => exact absurd (Or.inr (by rw [hrows]; rfl)) hcond

/-- Witness for C9: an INSERT-tagged result carrying a row array resolves
to the read pair. -/
theorem C9_rows_precedence_witness :
    normalizeResult (⟨some "INSERT".data, some [42], some 1⟩ : DriverResult Nat) =
      ExecuteValue.readPair (some [42]) none :=
  (C9_rows_precedence _).1 [42] rfl

/-- Claim C10: normalization is total on results lacking a command tag:
an absent tag is treated as the empty string, no exception is raised, and
classification falls through to the row-array check alone. -/
theorem C10_missing_command {Row : Type} (r : DriverResult Row)
    (h : r.command = none) :
    normalizeResult r =
      (if r.rows.isSome then ExecuteValue.readPair r.rows none
       else ExecuteValue.okPacket (r.rowCount.getD 0) none) := by
  unfold normalizeResult
  rw [h]
  have hne : ¬ jsToUpper ((none : Option (List Char)).getD []) = selectTag := by decide
  by_cases hrows : r.rows.isSome = true
  · rw [if_pos (Or.inr hrows), if_pos hrows]
  · have hcond : ¬ (jsToUpper ((none : Option (List Char)).getD []) = selectTag
        ∨ r.rows.isSome = true) := by
      intro hor
      rcases hor with h1 | h2
      · exact hne h1
      · exact hrows h2
    rw [if_neg hcond, if_neg hrows]

/-- Witness for C10: a result with no command tag, no row array and no row
count resolves to the OkPacket with affectedRows 0. -/
theorem C10_missing_command_witness :
    normalizeResult (⟨none, none, none⟩ : DriverResult Nat) =
      ExecuteValue.okPacket 0 none := by
  have h := C10_missing_command (⟨none, none, none⟩ : DriverResult Nat) rfl
  simpa using h

end LibraryDeployment
